import Mathlib

/-!
Verification development for the algobattle framework.

The Python sources are embedded shallowly:
* floats used for scores and approximation ratios become rationals (`ℚ`),
* instance sizes become integers (`ℤ`, Python ints are unbounded and can go
  negative inside the iterated search),
* sandboxed subprocess executions become small inductive result types,
* the global team-name registry becomes explicit state passing,
* Python dicts holding the points table become a key list plus a valuation
  function.

Each definition's doc comment names the source location it embeds.  The few
pieces of the framework whose code is not part of this snapshot of the
repository (the modern fight pipeline producing `FightOutcome`s) are modelled
from the specification and are marked `Modelled from the spec:` explicitly.
-/

namespace Algobattle

/-! ## Fight pipeline (spec §4.2) and `Problem.calculate_score` -/

/-- Result of one sandboxed program execution, abstracting the container
runtime: the run either timed out, crashed (non-zero exit or I/O error), or
completed with usable output. -/
inductive SandboxResult where
  | timeout
  | error
  | ok
deriving DecidableEq, Repr

/-- The terminal failure kinds a fight can end with (spec §4.2/§7). -/
inductive FailureKind where
  | generator_timeout
  | generator_error
  | generator_invalid
  | solver_timeout
  | solver_error
  | solver_invalid
deriving DecidableEq, Repr

/-- Result of one generate+solve cycle at a given instance size:
a score and, when the fight ended in a terminal failure, its kind. -/
structure FightOutcome where
  score : ℚ
  failure : Option FailureKind
deriving DecidableEq, Repr

/-- Clamping a value to the interval `[lo, hi]`. -/
def clamp (x lo hi : ℚ) : ℚ := max lo (min x hi)

/-- Scoring direction of a `Scored` solution,
from `src/algobattle/problem.py` (`Scored.direction`). -/
inductive ScoreDirection where
  | minimize
  | maximize
deriving DecidableEq, Repr

/-- Default `Problem.calculate_score`, from `src/algobattle/problem.py`
lines 82-107.  `genScore` and `solScore` are the values of
`generator_solution.score(self, size)` and `solution.score(self, size)`,
abstracted as functions of the instance size. -/
def calculate_score (direction : ScoreDirection) (genScore solScore : ℤ → ℚ)
    (size : ℤ) : ℚ :=
  if genScore size = 0 then 1
  else if solScore size = 0 then 0
  else
    match direction with
    | .minimize => genScore size / solScore size
    | .maximize => solScore size / genScore size

/-- Modelled from the spec: the five-step fight pipeline `run_fight` of
spec §4.2 is not part of this source snapshot (only its collaborators
`Problem.calculate_score` and the historical `Match._one_fight` are), so it is
modelled from the spec's words: generator sandbox failures score 1 in favour
of the solver, solver sandbox failures and invalid outputs score 0, and
otherwise the score is `clamp(problem.calculate_score(...), 0, 1)`. -/
def run_fight (genRun : SandboxResult) (instanceValid : Bool)
    (solRun : SandboxResult) (solutionValid : Bool) (rawScore : ℚ) :
    FightOutcome :=
  match genRun with
  | .timeout => ⟨1, some .generator_timeout⟩
  | .error => ⟨1, some .generator_error⟩
  | .ok =>
    if instanceValid = false then ⟨1, some .generator_invalid⟩
    else
      match solRun with
      | .timeout => ⟨0, some .solver_timeout⟩
      | .error => ⟨0, some .solver_error⟩
      | .ok =>
        if solutionValid = false then ⟨0, some .solver_invalid⟩
        else ⟨clamp rawScore 0 1, none⟩

/-- The historical fight runner `Match._one_fight` from `src/match.py`
lines 206-306, reduced to the data it returns: the `alive` flag telling the
battle loop whether the solving team survived this fight.  On a generator
timeout or an invalid generated instance it returns `true` (the solver is not
blamed); solver timeouts, wrong answers and insufficient quality return
`false`. -/
def one_fight (genTimedOut : Bool) (generatedValid : Bool)
    (solTimedOut : Bool) (solutionValid : Bool) (qualityOk : Bool) : Bool :=
  if genTimedOut = true then true
  else if generatedValid = false then true
  else if solTimedOut = true then false
  else if solutionValid = false then false
  else if qualityOk = false then false
  else true

/-! ## Docker sandbox, from `src/algobattle/docker.py` -/

/-- The single error type of the docker wrapper,
from `src/algobattle/docker.py` (`class DockerError`). -/
inductive DockerError where
  | mk
deriving DecidableEq, Repr

/-- Outcome of the underlying `subprocess.run` call inside `Image.run`:
it timed out, exited non-zero (or threw), or completed with stdout. -/
inductive ProcessResult where
  | timeout
  | failed (stderr : String)
  | completed (stdout : String)
deriving DecidableEq, Repr

/-- `Image.run` from `src/algobattle/docker.py` lines 60-96.  The first
component is what the call returns to its caller (`Except.error` models the
`raise DockerError` path); the second component records whether the
`finally` block attempted to kill the container (it always does). -/
def image_run (res : ProcessResult) : Except DockerError String × Bool :=
  match res with
  | .timeout => (Except.ok "", true)
  | .failed _ => (Except.error DockerError.mk, true)
  | .completed out => (Except.ok out, true)

/-! ## Iterated battle wrapper, from `src/algobattle/battle_wrappers/iterated.py` -/

/-- The mutable state of the iterated battle loop (`Iterated.wrapper`,
`src/algobattle/battle_wrappers/iterated.py` lines 44-49): the size `n`
currently being attempted, the step counter `i`, the current size cap
`n_cap`, the largest size solved so far `maximum_reached_n`, and the `alive`
flag controlling the `while` loop. -/
structure IterState where
  n : ℤ
  i : ℕ
  n_cap : ℤ
  maximum_reached_n : ℤ
  alive : Bool
deriving DecidableEq, Repr

/-- Whether the battle is still alive after a fight returning approximation
ratio `r`, given the configured required ratio (`Iterated.wrapper` lines
54-60): `approx_ratio == 0.0` and `approx_ratio > match.approximation_ratio`
both kill the battle. -/
def fight_alive (r approximation_ratio : ℚ) : Bool :=
  if r = 0 then false
  else if approximation_ratio < r then false
  else true

/-- Lines 62-71 of `Iterated.wrapper`: if the fight was lost while `i > 1`,
back the step off (`n_cap = n; n -= i ** exponent; i = 0; alive = True`);
otherwise record a newly solved maximum size when the fight was won. -/
def iterated_backtrack (exponent : ℕ) (s : IterState) (alive1 : Bool) :
    IterState :=
  if alive1 = false ∧ 1 < s.i then
    { s with n_cap := s.n, n := s.n - (s.i : ℤ) ^ exponent, i := 0, alive := true }
  else if s.maximum_reached_n < s.n ∧ alive1 = true then
    { s with maximum_reached_n := s.n, alive := alive1 }
  else
    { s with alive := alive1 }

/-- Lines 73-87 of `Iterated.wrapper`: stop when there is no room left below
the cap, otherwise advance `i` and `n`; if the advanced `n` reaches a
previously discovered failure cap, pull back to just above the old size and
reset the step, and if it reaches the configured hard cap `n_max`, declare a
capped win (`maximum_reached_n = n_max`) and stop. -/
def iterated_advance (exponent : ℕ) (n_max : ℤ) (s : IterState) : IterState :=
  if s.n + 1 = s.n_cap then { s with alive := false }
  else
    let i2 := s.i + 1
    let n2 := s.n + (i2 : ℤ) ^ exponent
    if s.n_cap ≤ n2 ∧ s.n_cap ≠ n_max then
      { s with i := 1, n := n2 - ((i2 : ℤ) ^ exponent - 1) }
    else if s.n_cap ≤ n2 ∧ s.n_cap = n_max then
      { s with i := i2, n := n2, maximum_reached_n := n_max, alive := false }
    else
      { s with i := i2, n := n2 }

/-- One full iteration of the `while alive` loop body of `Iterated.wrapper`
(lines 52-88), with the fight at size `s.n` returning ratio `ratio s.n`. -/
def iterated_body (exponent : ℕ) (n_max : ℤ) (ratio : ℤ → ℚ)
    (approximation_ratio : ℚ) (s : IterState) : IterState :=
  iterated_advance exponent n_max
    (iterated_backtrack exponent s (fight_alive (ratio s.n) approximation_ratio))

/-- The `while alive` loop of `Iterated.wrapper`, with explicit fuel.  The
loop runs the body only while `alive` holds, so any state with
`alive = false` is a fixed point. -/
def iterated_loop (fuel : ℕ) (exponent : ℕ) (n_max : ℤ) (ratio : ℤ → ℚ)
    (approximation_ratio : ℚ) (s : IterState) : IterState :=
  match fuel with
  | 0 => s
  | fuel + 1 =>
    if s.alive = true then
      iterated_loop fuel exponent n_max ratio approximation_ratio
        (iterated_body exponent n_max ratio approximation_ratio s)
    else s

/-- The initial loop state of `Iterated.wrapper` (lines 44-49):
`n = n_start`, `i = 0`, `n_cap = n_max`, `maximum_reached_n = 0`,
`alive = True`. -/
def iterated_start (n_start n_max : ℤ) : IterState :=
  ⟨n_start, 0, n_max, 0, true⟩

/-! ## Averaged battle wrapper, from `src/algobattle/battle_wrappers/averaged.py` -/

/-- The list of approximation ratios accumulated by `Averaged.wrapper`
(lines 34-45): one fight per configured iteration, all at the fixed instance
size, appended in order. -/
def averaged_ratios (approx_iters : ℕ) (fight : ℕ → ℚ) : List ℚ :=
  (List.range approx_iters).map fight

/-- The valuation of one side's ratio list inside `Averaged.calculate_points`
(lines 90-95): zero for an empty or all-zero list, otherwise the sum of the
reciprocals of the nonzero ratios divided by the number of ratios. -/
def averaged_valuation (ratios : List ℚ) : ℚ :=
  if ratios ≠ [] ∧ ratios.sum ≠ 0 then
    (ratios.map (fun x => if x ≠ 0 then 1 / x else 0)).sum / ratios.length
  else 0

/-- The arithmetic mean of a list of fight scores, written from the spec's
words ("report the mean score") purely for comparison with the source's
`averaged_valuation`. -/
def arithmetic_mean_spec (scores : List ℚ) : ℚ := scores.sum / scores.length

/-! ## Points calculation, from `src/algobattle/match.py` lines 86-126 -/

/-- Python's `round` on a rational value: round half to even. -/
def python_round (q : ℚ) : ℤ :=
  if q - ⌊q⌋ < 1 / 2 then ⌊q⌋
  else if 1 / 2 < q - ⌊q⌋ then ⌊q⌋ + 1
  else if ⌊q⌋ % 2 = 0 then ⌊q⌋ else ⌊q⌋ + 1

/-- Python's `round(q, 1)`: rounding to one decimal place. -/
def round1 (q : ℚ) : ℚ := (python_round (10 * q) : ℚ) / 10

/-- The points dict built by `Match.calculate_points`: its keys and the value
stored under each key (absent keys are 0). -/
structure PointsTable where
  keys : List String
  val : String → ℚ

/-- `points[name] += q` on a `PointsTable`. -/
def PointsTable.add (t : PointsTable) (name : String) (q : ℚ) : PointsTable :=
  ⟨t.keys, fun s => if s = name then t.val s + q else t.val s⟩

/-- The sum of all entries of the points table. -/
def PointsTable.total (t : PointsTable) : ℚ := (t.keys.map t.val).sum

/-- `itertools.combinations(l, 2)` as used by `TeamHandler.grouped_matchups`
(`src/algobattle/team.py` line 176): all unordered pairs of distinct
positions, in order. -/
def combinations2 {α : Type} : List α → List (α × α)
  | [] => []
  | x :: xs => (xs.map fun y => (x, y)) ++ combinations2 xs

/-- The per-pair contributions computed in the loop body of
`Match.calculate_points` (lines 109-119): given both battle scores, split
`points_per_battle` 50/50 when both are zero and proportionally otherwise,
rounding each side's share to one decimal place. -/
def pair_contribution (points_per_battle s_home s_away : ℚ) : ℚ × ℚ :=
  let total_score := s_home + s_away
  let home_ratio := if total_score = 0 then 1 / 2 else s_home / total_score
  let away_ratio := if total_score = 0 then 1 / 2 else s_away / total_score
  (round1 (points_per_battle * home_ratio), round1 (points_per_battle * away_ratio))

/-- `Match.calculate_points` from `src/algobattle/match.py` lines 86-126.
Teams are identified by their names; `score x y` is the score of the battle
of the pair `{x, y}` that is attributed to team `x` (the battle in which `x`
plays the configured scoring role).  With no active team the table is empty,
with one active team it gets all achievable points, and otherwise each
unordered pair of active teams splits `points_per_battle` according to
`pair_contribution`, and every active team additionally receives
`points_per_battle` for each excluded team. -/
def calculate_points (achievable_points : ℚ) (active excluded : List String)
    (score : String → String → ℚ) : PointsTable :=
  match active with
  | [] => ⟨[], fun _ => 0⟩
  | [t] => ⟨[t], fun s => if s = t then achievable_points else 0⟩
  | _ :: _ :: _ =>
    let points_per_battle := round1 (achievable_points / ((active.length : ℚ) - 1))
    let init : PointsTable := ⟨(active ++ excluded).dedup, fun _ => 0⟩
    let after_pairs := (combinations2 active).foldl
      (fun t p =>
        (t.add p.1 (pair_contribution points_per_battle
            (score p.1 p.2) (score p.2 p.1)).1).add p.2
          (pair_contribution points_per_battle
            (score p.1 p.2) (score p.2 p.1)).2)
      init
    active.foldl
      (fun t a => t.add a (points_per_battle * (excluded.length : ℚ)))
      after_pairs

/-! ## Teams and matchups, from `src/algobattle/team.py` -/

/-- The name normalization applied by `Team.__post_init__` and
`TeamInfo.build` (`self.name.replace(" ", "_").lower()`).  Since the
replaced pattern is the single character `' '`, the two passes are one
character-wise map: spaces become underscores and letters are lowered. -/
def normalize_name (s : String) : String :=
  String.mk (s.data.map fun c => if c = ' ' then '_' else c.toLower)

/-- The registration step of `Team.__post_init__`
(`src/algobattle/team.py` lines 75-85) acting on the global `_team_names`
registry, modelled as the list of live (normalized) team names: constructing
a team whose normalized name is already registered raises `ValueError`
(`none`); otherwise the normalized name is registered and returned. -/
def team_post_init (names : List String) (name : String) :
    Option (List String × String) :=
  let n := normalize_name name
  if n ∈ names then none else some (names ++ [n], n)

/-- `Team.cleanup` (lines 105-109): the team's (already normalized) name is
removed from the registry. -/
def team_cleanup (names : List String) (name : String) : List String :=
  names.erase name

/-- The registry states reachable by constructing and cleaning up teams,
starting from the empty registry. -/
inductive ReachableNames : List String → Prop where
  | init : ReachableNames []
  | create : ∀ s name s' t, ReachableNames s →
      team_post_init s name = some (s', t) → ReachableNames s'
  | cleanup : ∀ s name, ReachableNames s →
      ReachableNames (team_cleanup s name)

/-- `TeamHandler.grouped_matchups` (`src/algobattle/team.py` lines 170-176):
for each unordered pair of active teams, the matchup with the first team
generating paired with the reversed matchup. -/
def grouped_matchups (active : List String) :
    List ((String × String) × (String × String)) :=
  (combinations2 active).map fun p => ((p.1, p.2), (p.2, p.1))

/-- `TeamHandler.matchups` (`src/algobattle/team.py` lines 178-184): a lone
active team battles itself, otherwise all matchups of all grouped pairs. -/
def matchups (active : List String) : List (String × String) :=
  match active with
  | [t] => [(t, t)]
  | _ => (grouped_matchups active).foldr (fun p acc => p.1 :: p.2 :: acc) []

/-! ## Helper lemmas -/

theorem clamp_unit_mem (x : ℚ) : 0 ≤ clamp x 0 1 ∧ clamp x 0 1 ≤ 1 := by
  constructor
  · exact le_max_left 0 (min x 1)
  · exact max_le (by norm_num) (min_le_right x 1)

/-! ## Claim theorems -/

/-- Claim C1: for every fight at any instance size `n ≥ 0`, the score
contained in the resulting `FightOutcome` lies in the closed interval
`[0, 1]`: the fight pipeline clamps the value returned by the injected
problem's `calculate_score` to `[0, 1]` before returning it. -/
theorem run_fight_score_in_unit (size : ℤ) (hsize : 0 ≤ size)
    (direction : ScoreDirection) (genScore solScore : ℤ → ℚ)
    (genRun solRun : SandboxResult) (instanceValid solutionValid : Bool) :
    0 ≤ (run_fight genRun instanceValid solRun solutionValid
        (calculate_score direction genScore solScore size)).score ∧
    (run_fight genRun instanceValid solRun solutionValid
        (calculate_score direction genScore solScore size)).score ≤ 1 := by
  cases genRun
  case timeout => simp only [run_fight]; norm_num
  case error => simp only [run_fight]; norm_num
  case ok =>
    cases instanceValid
    case false => simp only [run_fight]; norm_num
    case true =>
      cases solRun
      case timeout => simp only [run_fight]; norm_num
      case error => simp only [run_fight]; norm_num
      case ok =>
        cases solutionValid
        case false => simp only [run_fight]; norm_num
        case true =>
          simp only [run_fight]
          exact clamp_unit_mem _

/-- Witness for C1 at size 3, where the raw `calculate_score` value is
`4 / 2 = 2` and the returned score is clamped down to 1. -/
theorem run_fight_score_in_unit_witness :
    (0 : ℤ) ≤ 3 ∧
    (0 ≤ (run_fight .ok true .ok true
        (calculate_score .minimize (fun _ => 4) (fun _ => 2) 3)).score ∧
      (run_fight .ok true .ok true
        (calculate_score .minimize (fun _ => 4) (fun _ => 2) 3)).score ≤ 1) :=
  ⟨by norm_num,
    run_fight_score_in_unit 3 (by norm_num) .minimize (fun _ => 4) (fun _ => 2)
      .ok .ok true true⟩

/-- Claim C3: whenever the generator's sandboxed run fails (timeout or
execution error), the fight returns a generator-failure outcome
(`generator_timeout` or `generator_error`) whose score is the maximum score 1
credited to the solver side; consistently, the historical
`Match._one_fight` returns `alive = True` on a generator timeout, so the
solver is never penalized for the missing instance. -/
theorem run_fight_generator_failure_max_score (genRun : SandboxResult)
    (hfail : genRun = .timeout ∨ genRun = .error)
    (instanceValid solutionValid generatedValid solTimedOut qualityOk : Bool)
    (solRun : SandboxResult) (rawScore : ℚ) :
    (run_fight genRun instanceValid solRun solutionValid rawScore).score = 1 ∧
    ((run_fight genRun instanceValid solRun solutionValid rawScore).failure =
        some .generator_timeout ∨
      (run_fight genRun instanceValid solRun solutionValid rawScore).failure =
        some .generator_error) ∧
    one_fight true generatedValid solTimedOut solutionValid qualityOk = true := by
  rcases hfail with h | h <;> subst h <;>
    simp [run_fight, one_fight]

/-- Witness for C3: a concrete generator timeout. -/
theorem run_fight_generator_failure_max_score_witness :
    (SandboxResult.timeout = SandboxResult.timeout ∨
      SandboxResult.timeout = SandboxResult.error) ∧
    ((run_fight .timeout true .ok true (3 / 2)).score = 1 ∧
      ((run_fight .timeout true .ok true (3 / 2)).failure =
          some .generator_timeout ∨
        (run_fight .timeout true .ok true (3 / 2)).failure =
          some .generator_error) ∧
      one_fight true true false true true = true) :=
  ⟨Or.inl rfl,
    run_fight_generator_failure_max_score .timeout (Or.inl rfl)
      true true true false true .ok (3 / 2)⟩

/-- Claim C5, counterexample: in `src/algobattle/docker.py` a run that
exceeds its time limit does not fail with an error result; `Image.run`
catches `TimeoutExpired` and returns the empty string as if it were the
container's ordinary output. -/
theorem image_run_timeout_returns_ok :
    (image_run ProcessResult.timeout).1 = Except.ok "" ∧
    ¬∃ e, (image_run ProcessResult.timeout).1 = Except.error e := by
  constructor
  · rfl
  · rintro ⟨e, h⟩
    simp [image_run] at h

/-- Claim C5, amended: on every subprocess outcome the `finally` block
attempts to kill the container, and on a timeout the call returns the empty
string as an ordinary result instead of raising. -/
theorem image_run_kills_and_timeout_empty (res : ProcessResult) :
    (image_run res).2 = true ∧
    (res = ProcessResult.timeout → (image_run res).1 = Except.ok "") := by
  cases res <;> simp [image_run]

/-- Witness for the amended C5 at the timeout outcome. -/
theorem image_run_kills_and_timeout_empty_witness :
    (image_run ProcessResult.timeout).2 = true ∧
    (image_run ProcessResult.timeout).1 = Except.ok "" :=
  ⟨(image_run_kills_and_timeout_empty ProcessResult.timeout).1,
    (image_run_kills_and_timeout_empty ProcessResult.timeout).2 rfl⟩

/-- Claim C10: with no active teams, `TeamHandler.matchups` is the empty
list and `TeamHandler.grouped_matchups` is likewise empty, so a match whose
teams all failed to build schedules no battles. -/
theorem matchups_empty_of_no_active :
    matchups [] = [] ∧ grouped_matchups [] = [] := by
  constructor <;> rfl

/-- Claim C2, failing input: with `exponent = 2`, start size 0, hard cap
`n_max = 5` and a monotone boundary `B = 1` (the fight at size `n` returns
ratio 1 for `n < 1` and 0 — a hard failure — for `n ≥ 1`), the iterated
loop of `Iterated.wrapper` terminates but reports
`maximum_reached_n = 5 = n_max`: after the failure at size 1 with
`i = 1` the increment block still runs, pushes `n` to `1 + 2² = 5 ≥ n_cap`
and the capped-win branch overwrites `maximum_reached_n` with `n_max`,
overshooting the boundary `B = 1` by far more than one step. -/
theorem iterated_reports_cap_after_boundary_failure :
    iterated_loop 10 2 5 (fun n => if n < 1 then 1 else 0) 1
        (iterated_start 0 5) =
      ⟨5, 2, 5, 5, false⟩ ∧
    fight_alive ((fun n : ℤ => if n < (1 : ℤ) then (1 : ℚ) else 0) 1) 1 = false := by
  constructor <;> decide

/-- Claim C6, counterexample: a fight lost at `n = 1` with `step_index
i = 1 ≤ 1` does not leave `maximum_reached_n` final.  With `n_max = 5` the
loop body still increments `n` to `1 + 2² = 5`, hits the capped-win branch
and overwrites `maximum_reached_n` from 0 to 5 in the very iteration that
ended the search. -/
theorem iterated_failed_fight_overwrites_max :
    fight_alive ((fun n : ℤ => if n < 1 then (1 : ℚ) else 0) (1 : ℤ)) 1 = false ∧
    (⟨1, 1, 5, 0, true⟩ : IterState).i ≤ 1 ∧
    (iterated_body 2 5 (fun n => if n < 1 then 1 else 0) 1
        ⟨1, 1, 5, 0, true⟩).maximum_reached_n ≠
      (⟨1, 1, 5, 0, true⟩ : IterState).maximum_reached_n := by
  refine ⟨by decide, by decide, by decide⟩

/-- Claim C6, amended: in the iterated loop, when the fight at the current
size fails while `step_index > 1` the backtrack stage sets
`cap = current_size`, decreases `current_size` by `step_index ^ exponent`,
resets `step_index = 0` and marks the battle alive again; when instead
`step_index ≤ 1` the iteration ends the search (`alive` is false after the
body), but `max_solved` is only final if the subsequently incremented size
stays below the cap or a backtrack cap is active — if the incremented size
reaches the cap while `cap = n_max`, `max_solved` is overwritten with
`n_max`. -/
theorem iterated_failure_step (exponent : ℕ) (n_max : ℤ) (ratio : ℤ → ℚ)
    (approximation_ratio : ℚ) (s : IterState) (halive : s.alive = true)
    (hfail : fight_alive (ratio s.n) approximation_ratio = false) :
    (1 < s.i →
      iterated_backtrack exponent s (fight_alive (ratio s.n) approximation_ratio) =
        { s with
            n_cap := s.n
            n := s.n - (s.i : ℤ) ^ exponent
            i := 0
            alive := true }) ∧
    (s.i ≤ 1 →
      (iterated_body exponent n_max ratio approximation_ratio s).alive = false ∧
      (iterated_body exponent n_max ratio approximation_ratio s).maximum_reached_n =
        (if s.n + 1 ≠ s.n_cap ∧ s.n_cap ≤ s.n + ((s.i : ℤ) + 1) ^ exponent ∧
            s.n_cap = n_max
          then n_max else s.maximum_reached_n)) := by
  constructor
  · intro hi
    rw [hfail]
    simp only [iterated_backtrack]
    split_ifs with h h2
    · rfl
    all_goals simp_all
  · intro hi
    have hs1 : iterated_backtrack exponent s
        (fight_alive (ratio s.n) approximation_ratio) = { s with alive := false } := by
      rw [hfail]
      simp only [iterated_backtrack]
      rw [if_neg (by simp; omega), if_neg (by simp)]
    simp only [iterated_body, hs1, iterated_advance]
    push_cast
    split_ifs with h1 h2 h3 <;> simp_all <;> omega

/-- Witness for the amended C6 at the counterexample state: the body of the
iteration that loses the fight at size 1 with `i = 1` ends the search but
overwrites `maximum_reached_n` with `n_max = 5`. -/
theorem iterated_failure_step_witness :
    (iterated_body 2 5 (fun n => if n < 1 then 1 else 0) 1
        ⟨1, 1, 5, 0, true⟩).alive = false ∧
    (iterated_body 2 5 (fun n => if n < 1 then 1 else 0) 1
        ⟨1, 1, 5, 0, true⟩).maximum_reached_n = 5 := by
  have h := (iterated_failure_step 2 5 (fun n => if n < 1 then 1 else 0) 1
    ⟨1, 1, 5, 0, true⟩ rfl (by decide)).2 (by decide)
  refine ⟨h.1, ?_⟩
  rw [h.2]
  decide

/-- Claim C4, counterexample: with one configured fight returning the
nonzero ratio 2, `Averaged.calculate_points` reports the valuation
`1/2` — the mean of the reciprocals — which is not the arithmetic mean 2 of
the fight scores. -/
theorem averaged_valuation_not_arithmetic_mean :
    averaged_valuation (averaged_ratios 1 fun _ => 2) = 1 / 2 ∧
    arithmetic_mean_spec (averaged_ratios 1 fun _ => 2) = 2 ∧
    averaged_valuation (averaged_ratios 1 fun _ => 2) ≠
      arithmetic_mean_spec (averaged_ratios 1 fun _ => 2) := by
  norm_num [averaged_valuation, averaged_ratios, arithmetic_mean_spec,
    List.range_succ]

theorem one_div_sum_le_length (l : List ℚ) (h : ∀ x ∈ l, 1 ≤ x) :
    (l.map fun x => 1 / x).sum ≤ (l.length : ℚ) := by
  induction l with
  | nil => simp
  | cons a t ih =>
    simp only [List.map_cons, List.sum_cons, List.length_cons]
    have ha : 1 ≤ a := h a (by simp)
    have h1 : 1 / a ≤ 1 := by
      rw [div_le_one (by linarith)]
      exact ha
    have h2 := ih fun x hx => h x (by simp [hx])
    push_cast
    linarith

theorem one_div_sum_pos (l : List ℚ) (h : ∀ x ∈ l, 1 ≤ x) (hne : l ≠ []) :
    0 < (l.map fun x => 1 / x).sum := by
  cases l with
  | nil => exact absurd rfl hne
  | cons a t =>
    simp only [List.map_cons, List.sum_cons]
    have ha : 1 ≤ a := h a (by simp)
    have h1 : 0 < 1 / a := by positivity
    have h2 : 0 ≤ (t.map fun x => 1 / x).sum := by
      apply List.sum_nonneg
      intro x hx
      obtain ⟨y, hy, rfl⟩ := List.mem_map.1 hx
      have : 1 ≤ y := h y (by simp [hy])
      positivity
    linarith

theorem sum_pos_of_one_le (l : List ℚ) (h : ∀ x ∈ l, 1 ≤ x) (hne : l ≠ []) :
    0 < l.sum := by
  cases l with
  | nil => exact absurd rfl hne
  | cons a t =>
    simp only [List.sum_cons]
    have ha : 1 ≤ a := h a (by simp)
    have h2 : 0 ≤ t.sum := by
      apply List.sum_nonneg
      intro x hx
      have : 1 ≤ x := h x (by simp [hx])
      linarith
    linarith

/-- Claim C4, amended: when all of the configured number of fights succeed
with ratio at least 1 (in particular nonzero), the valuation reported by
`Averaged.calculate_points` equals the arithmetic mean of the *reciprocals*
of the fight ratios (not of the ratios themselves), and that valuation lies
in `(0, 1] ⊆ [0, 1]`. -/
theorem averaged_valuation_reciprocal_mean (approx_iters : ℕ) (fight : ℕ → ℚ)
    (hpos : 0 < approx_iters) (hone : ∀ j, j < approx_iters → 1 ≤ fight j) :
    averaged_valuation (averaged_ratios approx_iters fight) =
      ((averaged_ratios approx_iters fight).map fun x => 1 / x).sum /
        ((averaged_ratios approx_iters fight).length : ℚ) ∧
    0 < averaged_valuation (averaged_ratios approx_iters fight) ∧
    averaged_valuation (averaged_ratios approx_iters fight) ≤ 1 := by
  set L := averaged_ratios approx_iters fight with hL
  have hlen : L.length = approx_iters := by
    simp [hL, averaged_ratios]
  have hmem : ∀ x ∈ L, 1 ≤ x := by
    intro x hx
    rw [hL, averaged_ratios, List.mem_map] at hx
    obtain ⟨j, hj, rfl⟩ := hx
    exact hone j (List.mem_range.1 hj)
  have hne : L ≠ [] := by
    intro h
    rw [h] at hlen
    simp at hlen
    omega
  have hsum : L.sum ≠ 0 := ne_of_gt (sum_pos_of_one_le L hmem hne)
  have hmap : (L.map fun x => if x ≠ 0 then 1 / x else 0) = L.map fun x => 1 / x := by
    apply List.map_congr_left
    intro x hx
    have : 1 ≤ x := hmem x hx
    rw [if_pos (by intro h; rw [h] at this; norm_num at this)]
  have hval : averaged_valuation L =
      ((L.map fun x => 1 / x).sum) / (L.length : ℚ) := by
    rw [averaged_valuation, if_pos ⟨hne, hsum⟩, hmap]
  refine ⟨hval, ?_, ?_⟩
  · rw [hval]
    apply div_pos (one_div_sum_pos L hmem hne)
    rw [hlen]
    exact_mod_cast hpos
  · rw [hval]
    rw [div_le_one (by rw [hlen]; exact_mod_cast hpos)]
    exact one_div_sum_le_length L hmem

/-- Witness for the amended C4: two fights with ratio 2 value to `1/2`. -/
theorem averaged_valuation_reciprocal_mean_witness :
    averaged_valuation (averaged_ratios 2 fun _ => 2) =
      ((averaged_ratios 2 fun _ => 2).map fun x => 1 / x).sum /
        ((averaged_ratios 2 fun _ => 2).length : ℚ) ∧
    0 < averaged_valuation (averaged_ratios 2 fun _ => 2) ∧
    averaged_valuation (averaged_ratios 2 fun _ => 2) ≤ 1 :=
  averaged_valuation_reciprocal_mean 2 (fun _ => 2) (by norm_num)
    (fun j _ => by norm_num)

/-- Claim C8: constructing a `Team` whose normalized name is already
registered by a live (not yet cleaned-up) team fails with an error, every
successful construction registers the normalized name, and consequently any
registry state reachable by constructions and cleanups holds no duplicate
live team names. -/
theorem team_name_registry_unique :
    (∀ s name, normalize_name name ∈ s → team_post_init s name = none) ∧
    (∀ s name s' t, team_post_init s name = some (s', t) →
      t = normalize_name name ∧ normalize_name name ∈ s') ∧
    (∀ s, ReachableNames s → s.Nodup) := by
  have hsome : ∀ s name s' t, team_post_init s name = some (s', t) →
      normalize_name name ∉ s ∧ s' = s ++ [normalize_name name] ∧
        t = normalize_name name := by
    intro s name s' t h
    rw [team_post_init] at h
    by_cases hm : normalize_name name ∈ s
    · rw [if_pos hm] at h
      exact absurd h (by simp)
    · rw [if_neg hm] at h
      simp only [Option.some.injEq, Prod.mk.injEq] at h
      exact ⟨hm, h.1.symm, h.2.symm⟩
  refine ⟨?_, ?_, ?_⟩
  · intro s name h
    rw [team_post_init, if_pos h]
  · intro s name s' t h
    obtain ⟨_, hs', ht⟩ := hsome s name s' t h
    exact ⟨ht, by rw [hs']; simp⟩
  · intro s hs
    induction hs with
    | init => exact List.nodup_nil
    | create s name s' t _ heq ih =>
      obtain ⟨hm, hs', _⟩ := hsome s name s' t heq
      rw [hs']
      rw [List.nodup_append]
      exact ⟨ih, List.nodup_singleton _, by simpa using hm⟩
    | cleanup s name _ ih => exact ih.erase name

/-- Witness for C8: the registry `["a_b"]` is reachable (by building a team
named "A B" from the empty registry), is duplicate-free, and a second team
whose name normalizes to the same string fails to build. -/
theorem team_name_registry_unique_witness :
    normalize_name "a B" ∈ ["a_b"] ∧
    team_post_init ["a_b"] "a B" = none ∧
    List.Nodup ["a_b"] := by
  have hreach : ReachableNames ["a_b"] :=
    ReachableNames.create [] "A B" ["a_b"] "a_b" ReachableNames.init (by decide)
  exact ⟨by decide, team_name_registry_unique.1 ["a_b"] "a B" (by decide),
    team_name_registry_unique.2.2 ["a_b"] hreach⟩

/-! ### Points table bookkeeping lemmas -/

theorem PointsTable.add_keys (t : PointsTable) (name : String) (q : ℚ) :
    (t.add name q).keys = t.keys := rfl

theorem map_update_sum (keys : List String) (v : String → ℚ) (name : String)
    (q : ℚ) (hnd : keys.Nodup) (hmem : name ∈ keys) :
    (keys.map fun s => if s = name then v s + q else v s).sum =
      (keys.map v).sum + q := by
  induction keys with
  | nil => simp at hmem
  | cons a rest ih =>
    obtain ⟨hna, hndr⟩ := List.nodup_cons.1 hnd
    by_cases ha : a = name
    · subst ha
      have hrest : (rest.map fun s => if s = a then v s + q else v s) =
          rest.map v := by
        apply List.map_congr_left
        intro x hx
        rw [if_neg]
        intro hxa
        exact hna (hxa ▸ hx)
      simp only [List.map_cons, List.sum_cons, hrest, if_true, eq_self_iff_true]
      ring
    · have hmem' : name ∈ rest := by
        rcases List.mem_cons.1 hmem with h | h
        · exact absurd h.symm ha
        · exact h
      simp only [List.map_cons, List.sum_cons, if_neg ha, ih hndr hmem']
      ring

theorem PointsTable.add_total (t : PointsTable) (name : String) (q : ℚ)
    (hnd : t.keys.Nodup) (hmem : name ∈ t.keys) :
    (t.add name q).total = t.total + q := by
  unfold PointsTable.total PointsTable.add
  exact map_update_sum t.keys t.val name q hnd hmem

theorem PointsTable.add_val_ne (t : PointsTable) (name : String) (q : ℚ)
    (x : String) (hx : x ≠ name) : (t.add name q).val x = t.val x := by
  simp [PointsTable.add, hx]

theorem pairs_foldl_keys (f : String × String → ℚ × ℚ) :
    ∀ (l : List (String × String)) (t : PointsTable),
      (l.foldl (fun t p => (t.add p.1 (f p).1).add p.2 (f p).2) t).keys =
        t.keys := by
  intro l
  induction l with
  | nil => intro t; rfl
  | cons p rest ih => intro t; exact ih _

theorem pairs_foldl_total (f : String × String → ℚ × ℚ) :
    ∀ (l : List (String × String)) (t : PointsTable), t.keys.Nodup →
      (∀ p ∈ l, p.1 ∈ t.keys ∧ p.2 ∈ t.keys) →
      (l.foldl (fun t p => (t.add p.1 (f p).1).add p.2 (f p).2) t).total =
        t.total + (l.map fun p => (f p).1 + (f p).2).sum := by
  intro l
  induction l with
  | nil => intro t _ _; simp
  | cons p rest ih =>
    intro t hnd hmem
    obtain ⟨hp1, hp2⟩ := hmem p (by simp)
    have step : ((t.add p.1 (f p).1).add p.2 (f p).2).total =
        t.total + ((f p).1 + (f p).2) := by
      rw [PointsTable.add_total (t.add p.1 (f p).1) p.2 (f p).2 hnd hp2,
        PointsTable.add_total t p.1 (f p).1 hnd hp1]
      ring
    simp only [List.foldl_cons, List.map_cons, List.sum_cons]
    rw [ih ((t.add p.1 (f p).1).add p.2 (f p).2) hnd
      (fun x hx => hmem x (by simp [hx])), step]
    ring

theorem pairs_foldl_val (f : String × String → ℚ × ℚ) :
    ∀ (l : List (String × String)) (t : PointsTable) (x : String),
      (∀ p ∈ l, p.1 ≠ x ∧ p.2 ≠ x) →
      (l.foldl (fun t p => (t.add p.1 (f p).1).add p.2 (f p).2) t).val x =
        t.val x := by
  intro l
  induction l with
  | nil => intro t x _; rfl
  | cons p rest ih =>
    intro t x hx
    obtain ⟨h1, h2⟩ := hx p (by simp)
    simp only [List.foldl_cons]
    rw [ih _ _ (fun y hy => hx y (by simp [hy]))]
    rw [PointsTable.add_val_ne _ _ _ _ (Ne.symm h2),
      PointsTable.add_val_ne _ _ _ _ (Ne.symm h1)]

theorem bonus_foldl_keys (q : ℚ) :
    ∀ (l : List String) (t : PointsTable),
      (l.foldl (fun t a => t.add a q) t).keys = t.keys := by
  intro l
  induction l with
  | nil => intro t; rfl
  | cons a rest ih => intro t; exact ih _

theorem bonus_foldl_total (q : ℚ) :
    ∀ (l : List String) (t : PointsTable), t.keys.Nodup →
      (∀ a ∈ l, a ∈ t.keys) →
      (l.foldl (fun t a => t.add a q) t).total = t.total + q * l.length := by
  intro l
  induction l with
  | nil => intro t _ _; simp
  | cons a rest ih =>
    intro t hnd hmem
    simp only [List.foldl_cons, List.length_cons]
    rw [ih (t.add a q) hnd (fun x hx => hmem x (by simp [hx])),
      PointsTable.add_total t a q hnd (hmem a (by simp))]
    push_cast
    ring

theorem bonus_foldl_val (q : ℚ) :
    ∀ (l : List String) (t : PointsTable) (x : String), (∀ a ∈ l, a ≠ x) →
      (l.foldl (fun t a => t.add a q) t).val x = t.val x := by
  intro l
  induction l with
  | nil => intro t x _; rfl
  | cons a rest ih =>
    intro t x hx
    simp only [List.foldl_cons]
    rw [ih _ _ (fun y hy => hx y (by simp [hy])),
      PointsTable.add_val_ne _ _ _ _ (Ne.symm (hx a (by simp)))]

theorem combinations2_mem {α : Type} (l : List α) (p : α × α)
    (h : p ∈ combinations2 l) : p.1 ∈ l ∧ p.2 ∈ l := by
  induction l with
  | nil => simp [combinations2] at h
  | cons x xs ih =>
    rw [combinations2, List.mem_append] at h
    rcases h with h | h
    · obtain ⟨y, hy, rfl⟩ := List.mem_map.1 h
      exact ⟨by simp, by simp [hy]⟩
    · obtain ⟨h1, h2⟩ := ih h
      exact ⟨by simp [h1], by simp [h2]⟩

theorem combinations2_length {α : Type} (l : List α) :
    2 * (combinations2 l).length + l.length = l.length * l.length := by
  induction l with
  | nil => rfl
  | cons x xs ih =>
    rw [combinations2, List.length_append, List.length_map, List.length_cons]
    nlinarith [ih]

/-- Claim C7, counterexample: with three active teams, no excluded teams,
and every battle score equal (all zero, so every pair splits 50/50 and no
rounding drift occurs anywhere: `points_per_battle = 50` and each half is
exactly 25), the final points sum to 150, not to the achievable 100: each of
the three unordered pairs hands out the full `per_pair` amount. -/
theorem calculate_points_three_team_total :
    (calculate_points 100 ["a", "b", "c"] [] fun _ _ => 0).total = 150 ∧
    (calculate_points 100 ["a", "b", "c"] [] fun _ _ => 0).total ≠ 100 := by
  have h : (calculate_points 100 ["a", "b", "c"] [] fun _ _ => 0).total = 150 := by
    simp only [calculate_points, pair_contribution, round1, python_round,
      PointsTable.add, PointsTable.total, combinations2, List.dedup,
      List.pwFilter, List.foldl, List.map, List.sum, List.foldr, List.mem_cons,
      List.mem_singleton, List.not_mem_nil, List.append_nil, List.cons_append,
      List.nil_append, List.length_cons, List.length_nil,
      String.reduceEq, reduceIte]
    norm_num
  refine ⟨h, by rw [h]; norm_num⟩

/-- Claim C7, amended: with at least two active teams and no excluded
teams, every pair whose two battle scores are equal (including both zero)
splits its `per_pair` amount exactly 50/50 — both sides receive
`round1(points_per_battle / 2)` — and, when rounding causes no drift (the
division defining `points_per_battle` and each pair's two rounded shares are
exact), the sum of all teams' final points equals
`achievable_points · active_count / 2`, which is the full `per_pair` amount
per unordered pair and reduces to `achievable_points` only for exactly two
active teams. -/
theorem calculate_points_tied_split_and_total (achievable : ℚ)
    (active : List String) (score : String → String → ℚ)
    (h2 : 2 ≤ active.length) (hnd : active.Nodup)
    (hppb : round1 (achievable / ((active.length : ℚ) - 1)) =
      achievable / ((active.length : ℚ) - 1))
    (hdrift : ∀ p ∈ combinations2 active,
      (pair_contribution (round1 (achievable / ((active.length : ℚ) - 1)))
          (score p.1 p.2) (score p.2 p.1)).1 +
        (pair_contribution (round1 (achievable / ((active.length : ℚ) - 1)))
          (score p.1 p.2) (score p.2 p.1)).2 =
        round1 (achievable / ((active.length : ℚ) - 1))) :
    (∀ ppb s : ℚ, pair_contribution ppb s s =
      (round1 (ppb / 2), round1 (ppb / 2))) ∧
    (calculate_points achievable active [] score).total =
      achievable * (active.length : ℚ) / 2 := by
  constructor
  · intro ppb s
    simp only [pair_contribution]
    by_cases h : s + s = 0
    · rw [if_pos h]
      rw [mul_one_div]
    · rw [if_neg h]
      have hs : s ≠ 0 := by
        intro h0
        rw [h0] at h
        norm_num at h
      have : s / (s + s) = 1 / 2 := by
        field_simp
        ring
      rw [this, mul_one_div]
  · rcases active with _ | ⟨a, _ | ⟨b, r⟩⟩
    · norm_num at h2
    · norm_num at h2
    simp only [calculate_points]
    have hkeys_init : ((a :: b :: r) ++ ([] : List String)).dedup = a :: b :: r := by
      rw [List.append_nil]
      exact List.Nodup.dedup hnd
    have hnd' : (⟨((a :: b :: r) ++ ([] : List String)).dedup, fun _ => (0 : ℚ)⟩ :
        PointsTable).keys.Nodup := by
      show (((a :: b :: r) ++ ([] : List String)).dedup).Nodup
      exact List.nodup_dedup _
    have hmem' : ∀ p ∈ combinations2 (a :: b :: r),
        p.1 ∈ (⟨((a :: b :: r) ++ ([] : List String)).dedup, fun _ => (0 : ℚ)⟩ :
          PointsTable).keys ∧
        p.2 ∈ (⟨((a :: b :: r) ++ ([] : List String)).dedup, fun _ => (0 : ℚ)⟩ :
          PointsTable).keys := by
      intro p hp
      obtain ⟨hp1, hp2⟩ := combinations2_mem _ p hp
      exact ⟨List.mem_dedup.2 (by simp [hp1]), List.mem_dedup.2 (by simp [hp2])⟩
    rw [bonus_foldl_total _ (a :: b :: r) _
      (by rw [pairs_foldl_keys]; exact hnd')
      (by intro x hx
          rw [pairs_foldl_keys]
          show x ∈ ((a :: b :: r) ++ ([] : List String)).dedup
          rw [hkeys_init]
          exact hx)]
    rw [pairs_foldl_total
      (fun p => pair_contribution (round1 (achievable / (((a :: b :: r).length : ℚ) - 1)))
        (score p.1 p.2) (score p.2 p.1))
      (combinations2 (a :: b :: r)) _ hnd' hmem']
    have hinit_total : (⟨((a :: b :: r) ++ ([] : List String)).dedup,
        fun _ => (0 : ℚ)⟩ : PointsTable).total = 0 := by
      simp [PointsTable.total]
    rw [hinit_total]
    have hmap : ((combinations2 (a :: b :: r)).map fun p =>
        (pair_contribution (round1 (achievable / (((a :: b :: r).length : ℚ) - 1)))
          (score p.1 p.2) (score p.2 p.1)).1 +
        (pair_contribution (round1 (achievable / (((a :: b :: r).length : ℚ) - 1)))
          (score p.1 p.2) (score p.2 p.1)).2) =
        List.replicate (combinations2 (a :: b :: r)).length
          (round1 (achievable / (((a :: b :: r).length : ℚ) - 1))) := by
      have := List.eq_replicate_of_mem (l :=
        (combinations2 (a :: b :: r)).map fun p =>
          (pair_contribution (round1 (achievable / (((a :: b :: r).length : ℚ) - 1)))
            (score p.1 p.2) (score p.2 p.1)).1 +
          (pair_contribution (round1 (achievable / (((a :: b :: r).length : ℚ) - 1)))
            (score p.1 p.2) (score p.2 p.1)).2)
        (a := round1 (achievable / (((a :: b :: r).length : ℚ) - 1)))
        (by intro x hx
            obtain ⟨p, hp, rfl⟩ := List.mem_map.1 hx
            exact hdrift p hp)
      rw [this, List.length_map]
    rw [hmap, List.sum_replicate, nsmul_eq_mul, hppb]
    have hC := combinations2_length (a :: b :: r)
    have hCq : (2 : ℚ) * ((combinations2 (a :: b :: r)).length : ℚ) +
        ((a :: b :: r).length : ℚ) =
        ((a :: b :: r).length : ℚ) * ((a :: b :: r).length : ℚ) := by
      exact_mod_cast hC
    have hge : (2 : ℚ) ≤ ((a :: b :: r).length : ℚ) := by exact_mod_cast h2
    have hne1 : ((a :: b :: r).length : ℚ) - 1 ≠ 0 := by
      intro h
      have : ((a :: b :: r).length : ℚ) = 1 := by linarith
      linarith
    simp only [List.length_nil, Nat.cast_zero, mul_zero, zero_mul, add_zero,
      zero_add]
    rw [← mul_div_assoc, div_eq_div_iff hne1 (by norm_num : (2 : ℚ) ≠ 0)]
    linear_combination achievable * hCq

/-- Witness for the amended C7: two active teams, all battle scores zero,
100 achievable points — the pair splits 50/50 and the table sums to
`100 · 2 / 2 = 100`. -/
theorem calculate_points_tied_split_and_total_witness :
    pair_contribution 100 0 0 = (round1 (100 / 2), round1 (100 / 2)) ∧
    (calculate_points 100 ["a", "b"] [] fun _ _ => 0).total =
      100 * ((["a", "b"] : List String).length : ℚ) / 2 := by
  have h := calculate_points_tied_split_and_total 100 ["a", "b"]
    (fun _ _ => 0) (by norm_num) (by decide)
    (by norm_num [round1, python_round])
    (by intro p hp
        norm_num [pair_contribution, round1, python_round])
  exact ⟨h.1 100 0, h.2⟩

/-- Claim C9, counterexample: when an excluded team's name collides with an
active team's name (which the build pipeline permits: a team whose name is
already taken fails to build and lands in `excluded`), the shared points
entry is incremented by the active team's battles and the excluded bonus,
so the excluded team's entry is 150, not 0. -/
theorem calculate_points_excluded_name_clash :
    (calculate_points 100 ["a", "b"] ["a"] fun _ _ => 0).val "a" = 150 ∧
    (calculate_points 100 ["a", "b"] ["a"] fun _ _ => 0).val "a" ≠ 0 := by
  have h : (calculate_points 100 ["a", "b"] ["a"] fun _ _ => 0).val "a" = 150 := by
    simp only [calculate_points, pair_contribution, round1, python_round,
      PointsTable.add, PointsTable.total, combinations2, List.dedup,
      List.pwFilter, List.foldl, List.map, List.sum, List.foldr, List.mem_cons,
      List.mem_singleton, List.not_mem_nil, List.append_nil, List.cons_append,
      List.nil_append, List.length_cons, List.length_nil,
      String.reduceEq, reduceIte]
    norm_num
  exact ⟨h, by rw [h]; norm_num⟩

/-- Claim C9, amended: with at least two active teams, and provided no
excluded team shares a name with an active team, the points table contains
an entry for every active and every excluded team, and every excluded
team's entry is exactly 0, since only active teams' entries are ever
incremented. -/
theorem calculate_points_excluded_zero (achievable : ℚ)
    (active excluded : List String) (score : String → String → ℚ)
    (h2 : 2 ≤ active.length) (hdisj : ∀ e ∈ excluded, e ∉ active) :
    (∀ name ∈ active ++ excluded,
      name ∈ (calculate_points achievable active excluded score).keys) ∧
    ∀ e ∈ excluded, (calculate_points achievable active excluded score).val e = 0 := by
  rcases active with _ | ⟨a, _ | ⟨b, r⟩⟩
  · norm_num at h2
  · norm_num at h2
  simp only [calculate_points]
  constructor
  · intro name hname
    rw [bonus_foldl_keys, pairs_foldl_keys]
    show name ∈ ((a :: b :: r) ++ excluded).dedup
    exact List.mem_dedup.2 hname
  · intro e he
    have hea : ∀ x ∈ (a :: b :: r), x ≠ e := by
      intro x hx hxe
      exact hdisj e he (hxe ▸ hx)
    rw [bonus_foldl_val _ (a :: b :: r) _ e hea]
    rw [pairs_foldl_val
      (fun p => pair_contribution (round1 (achievable / (((a :: b :: r).length : ℚ) - 1)))
        (score p.1 p.2) (score p.2 p.1))
      (combinations2 (a :: b :: r)) _ e
      (by intro p hp
          obtain ⟨hp1, hp2⟩ := combinations2_mem _ p hp
          exact ⟨hea p.1 hp1, hea p.2 hp2⟩)]

/-- Witness for the amended C9: two active teams and one disjointly named
excluded team. -/
theorem calculate_points_excluded_zero_witness :
    "c" ∈ (calculate_points 100 ["a", "b"] ["c"] fun _ _ => 0).keys ∧
    (calculate_points 100 ["a", "b"] ["c"] fun _ _ => 0).val "c" = 0 := by
  have h := calculate_points_excluded_zero 100 ["a", "b"] ["c"]
    (fun _ _ => 0) (by norm_num) (by decide)
  exact ⟨h.1 "c" (by decide), h.2 "c" (by decide)⟩

end Algobattle
